import Mathlib

/-!
Verification of the items read-API service (`main.go`).

The development shallowly embeds the service's core: the DynamoDB
attribute-value normalizer (`unwrapAttributeValue` and friends), the
identifier parsing (`parseItemIDs`), the dual-path query strategy
(`batchGetItems` over composite keys vs. `scanByItemIDs` with a
placeholder-bound filter expression), and the `/items` HTTP handler.
Strings are manipulated at the level of their character lists so that every
definition evaluates inside the kernel. The DynamoDB store itself is an
external collaborator; where a claim needs its behaviour (key lookup, filter
evaluation) it is modelled from the spec, and those definitions say so.
-/

namespace ItemsService

/-- The AWS SDK tagged union `types.AttributeValue` (members S, N, B, SS, NS,
BS, M, L, NULL, BOOL). Numbers are carried as their decimal strings, exactly
as in DynamoDB; binary blobs are modelled as byte lists. -/
inductive AttributeValue where
  | S (value : String)
  | N (value : String)
  | B (value : List Nat)
  | SS (value : List String)
  | NS (value : List String)
  | BS (value : List (List Nat))
  | M (value : List (String × AttributeValue))
  | L (value : List AttributeValue)
  | NULL (value : Bool)
  | BOOL (value : Bool)

/-- The plain JSON-friendly values (`interface` values in Go) produced by the
normalizer: strings, booleans, string sequences, nested maps, nested lists,
and null. -/
inductive Plain where
  | str (s : String)
  | bool (b : Bool)
  | strs (elems : List String)
  | map (entries : List (String × Plain))
  | list (elems : List Plain)
  | null

mutual

/-- Embeds `unwrapAttributeValue` from `main.go`: the type switch converting a
DynamoDB attribute value to a plain value. `S` and `N` yield the wrapped
string (numbers keep their decimal-string form), `BOOL` the boolean, `SS` and
`NS` their string slices, `M` and `L` recurse, and every other member falls
into the `default` branch and yields null. -/
def unwrapAttributeValue : AttributeValue → Plain
  | .S v => .str v
  | .N v => .str v
  | .BOOL v => .bool v
  | .SS v => .strs v
  | .NS v => .strs v
  | .M v => .map (unwrapEntries v)
  | .L v => .list (unwrapList v)
  | _ => .null

/-- The entry-wise recursion of the `M` (map) case of `unwrapAttributeValue`:
the `for k, mv := range v.Value` loop. -/
def unwrapEntries : List (String × AttributeValue) → List (String × Plain)
  | [] => []
  | (k, v) :: rest => (k, unwrapAttributeValue v) :: unwrapEntries rest

/-- The element-wise recursion of the `L` (list) case of
`unwrapAttributeValue`: the `for _, lv := range v.Value` loop. -/
def unwrapList : List AttributeValue → List Plain
  | [] => []
  | v :: rest => unwrapAttributeValue v :: unwrapList rest

end

/-- A stored item or a primary key: `map[string]types.AttributeValue`,
modelled as an association list. -/
abbrev Item := List (String × AttributeValue)

/-- Go's `responseItem` type (`map[string]interface` values), modelled as an
association list from attribute names to plain values. -/
abbrev responseItem := List (String × Plain)

/-- Embeds `attributeValueToMap`: normalize every attribute of an item. -/
def attributeValueToMap (item : Item) : responseItem :=
  item.map fun kv => (kv.1, unwrapAttributeValue kv.2)

/-- Embeds `convertItems`: normalize a list of items. -/
def convertItems (items : List Item) : List responseItem :=
  items.map attributeValueToMap

/-- The character class Go's `strings.TrimSpace` trims: `unicode.IsSpace`,
i.e. ASCII white space and the Unicode space characters. -/
def goIsSpace (c : Char) : Bool :=
  c.toNat = 9 || c.toNat = 10 || c.toNat = 11 || c.toNat = 12 ||
  c.toNat = 13 || c.toNat = 32 || c.toNat = 0x85 || c.toNat = 0xA0 ||
  c.toNat = 0x1680 || (0x2000 ≤ c.toNat && c.toNat ≤ 0x200A) ||
  c.toNat = 0x2028 || c.toNat = 0x2029 || c.toNat = 0x202F ||
  c.toNat = 0x205F || c.toNat = 0x3000

/-- Drop leading white space. -/
def trimLeft (cs : List Char) : List Char := cs.dropWhile goIsSpace

/-- Drop trailing white space. -/
def trimRight (cs : List Char) : List Char :=
  (cs.reverse.dropWhile goIsSpace).reverse

/-- Embeds `strings.TrimSpace` on the character list of a string. -/
def trimList (cs : List Char) : List Char := trimRight (trimLeft cs)

/-- Embeds `strings.Split(raw, ",")`: cut at every comma; `acc` holds the
characters of the current segment in reverse. -/
def splitOnCommaAux : List Char → List Char → List (List Char)
  | [], acc => [acc.reverse]
  | c :: rest, acc =>
      if c = ',' then acc.reverse :: splitOnCommaAux rest []
      else splitOnCommaAux rest (c :: acc)

/-- Embeds `strings.Split(raw, ",")` starting from an empty segment. -/
def splitOnComma (cs : List Char) : List (List Char) := splitOnCommaAux cs []

/-- Embeds `parseItemIDs` at the character-list level: trim the raw value,
return nothing when it is empty, otherwise split on commas and keep the
non-empty trimmed segments (the `for ... append` loop is the fold). -/
def parseItemIDsChars (raw : List Char) : List (List Char) :=
  let r := trimList raw
  if r = [] then []
  else
    (splitOnComma r).foldl
      (fun ids part =>
        let t := trimList part
        if t = [] then ids else ids ++ [t])
      []

/-- Embeds `parseItemIDs` from `main.go`. -/
def parseItemIDs (raw : String) : List String :=
  (parseItemIDsChars raw.data).map String.mk

/-- Embeds `setCommonHeaders`: the three CORS headers set on every response
of the `/items` handler. -/
def commonHeaders : List (String × String) :=
  [("Access-Control-Allow-Origin", "*"),
   ("Access-Control-Allow-Methods", "GET,OPTIONS"),
   ("Access-Control-Allow-Headers", "Content-Type,Accept")]

/-- Embeds the placeholder-building loop of `scanByItemIDs`: one pass over
the identifiers with their indices, extending the expression-attribute-value
map (as an association list, insertion order) and the placeholder list. -/
def buildScanExpr (itemIDs : List String) :
    List (String × AttributeValue) × List String :=
  itemIDs.enum.foldl
    (fun acc p =>
      (acc.1 ++ [(":v" ++ toString p.1, AttributeValue.S p.2)],
       acc.2 ++ [":v" ++ toString p.1]))
    ([], [])

/-- Embeds the filter-expression string built by `scanByItemIDs`:
`"ItemID IN (" + strings.Join(placeholders, ",") + ")"`. -/
def scanFilter (itemIDs : List String) : String :=
  "ItemID IN (" ++ String.intercalate "," (buildScanExpr itemIDs).2 ++ ")"

/-- The per-table key list of a `BatchGetItem` request
(`types.KeysAndAttributes`). -/
structure KeysAndAttributes where
  keys : List Item

/-- `dynamodb.BatchGetItemInput`: the requested keys, per table name. -/
structure BatchGetItemInput where
  requestItems : List (String × KeysAndAttributes)

/-- `dynamodb.BatchGetItemOutput`: the found items per table name, plus the
keys the store declined to process. -/
structure BatchGetItemOutput where
  responses : List (String × List Item)
  unprocessedKeys : List (String × KeysAndAttributes)

/-- `dynamodb.ScanInput`: table name, bound expression-attribute values, and
the filter-expression string. -/
structure ScanInput where
  tableName : String
  expressionAttributeValues : List (String × AttributeValue)
  filterExpression : String

/-- `dynamodb.ScanOutput`: the items passing the filter. -/
structure ScanOutput where
  items : List Item

/-- The DynamoDB client interface the service uses; each call may fail with
an error message (network failure, deadline expiry, throttling, ...). -/
structure Client where
  batchGetItem : BatchGetItemInput → Except String BatchGetItemOutput
  scan : ScanInput → Except String ScanOutput

/-- Embeds the key-building loop of `batchGetItems`: one composite key
`(StoreID, ItemID)` per identifier, in request order. -/
def buildBatchKeys (storeID : String) (itemIDs : List String) : List Item :=
  itemIDs.foldl
    (fun keys id =>
      keys ++ [[("StoreID", AttributeValue.S storeID),
                ("ItemID", AttributeValue.S id)]])
    []

/-- The single-table `BatchGetItemInput` built by `batchGetItems`. -/
def batchInput (tableName storeID : String) (itemIDs : List String) :
    BatchGetItemInput :=
  ⟨[(tableName, ⟨buildBatchKeys storeID itemIDs⟩)]⟩

/-- Embeds `batchGetItems`: issue the batch request; on success the records
come from the reply's `Responses[tableName]` entry alone (a missing entry
reads as the empty list, as a missing key of a Go map does). -/
def batchGetItems (client : Client) (tableName storeID : String)
    (itemIDs : List String) : Except String (List responseItem) :=
  match client.batchGetItem (batchInput tableName storeID itemIDs) with
  | .error e => .error e
  | .ok out => .ok (convertItems ((out.responses.lookup tableName).getD []))

/-- The `ScanInput` built by `scanByItemIDs`. -/
def scanInputOf (tableName : String) (itemIDs : List String) : ScanInput :=
  ⟨tableName, (buildScanExpr itemIDs).1, scanFilter itemIDs⟩

/-- Embeds `scanByItemIDs`: issue the scan and normalize the items. -/
def scanByItemIDs (client : Client) (tableName : String)
    (itemIDs : List String) : Except String (List responseItem) :=
  match client.scan (scanInputOf tableName itemIDs) with
  | .error e => .error e
  | .ok out => .ok (convertItems out.items)

/-- Embeds `apiResponse` (`itemIds`, `items` in the JSON encoding). -/
structure apiResponse where
  itemIDs : List String
  items : List responseItem

/-- A response body: empty (preflight), an `http.Error` message, or the
JSON-encoded `apiResponse`. -/
inductive Body where
  | empty
  | text (msg : String)
  | json (resp : apiResponse)

/-- A call the handler issues against the store client. -/
inductive StoreCall where
  | batch (input : BatchGetItemInput)
  | scan (input : ScanInput)

/-- What the `/items` handler produces for one request: status code, response
headers in the order they are set, body, and the store calls issued (so that
"no store access" is expressible). -/
structure HandlerResult where
  status : Nat
  headers : List (String × String)
  body : Body
  calls : List StoreCall

/-- The request data the `/items` handler inspects: the method and the raw
`itemIds` query-parameter value (`r.URL.Query().Get` yields `""` when the
parameter is absent). -/
structure Request where
  method : String
  itemIdsRaw : String

/-- Embeds the `/items` handler closure registered in `main`: CORS headers on
every response, 204 for preflight, 405 for any method other than GET, 400
when the parsed identifier list is empty, then the batch path when a store
identifier is configured and the scan path otherwise; a store error becomes a
generic 500, success a 200 with the JSON `apiResponse`. `http.Error` bodies
are modelled by their message strings. -/
def handleItems (client : Client) (tableName storeID : String)
    (req : Request) : HandlerResult :=
  if req.method = "OPTIONS" then
    ⟨204, commonHeaders, .empty, []⟩
  else if req.method ≠ "GET" then
    ⟨405, commonHeaders, .text "method not allowed", []⟩
  else
    let ids := parseItemIDs req.itemIdsRaw
    if ids.length = 0 then
      ⟨400, commonHeaders, .text "itemIds is required", []⟩
    else
      let r :=
        if storeID ≠ "" then
          (batchGetItems client tableName storeID ids,
           StoreCall.batch (batchInput tableName storeID ids))
        else
          (scanByItemIDs client tableName ids,
           StoreCall.scan (scanInputOf tableName ids))
      match r.1 with
      | .error _ => ⟨500, commonHeaders, .text "failed to query items", [r.2]⟩
      | .ok items =>
          ⟨200, commonHeaders ++ [("Content-Type", "application/json")],
           .json ⟨ids, items⟩, [r.2]⟩

mutual

/-- Equality test on attribute values, used by the store model to compare key
attributes and IN-operands. -/
def attrEq : AttributeValue → AttributeValue → Bool
  | .S a, .S b => a == b
  | .N a, .N b => a == b
  | .B a, .B b => a == b
  | .SS a, .SS b => a == b
  | .NS a, .NS b => a == b
  | .BS a, .BS b => a == b
  | .M a, .M b => attrEqEntries a b
  | .L a, .L b => attrEqList a b
  | .NULL a, .NULL b => a == b
  | .BOOL a, .BOOL b => a == b
  | _, _ => false

/-- Entry-wise equality of attribute maps. -/
def attrEqEntries :
    List (String × AttributeValue) → List (String × AttributeValue) → Bool
  | [], [] => true
  | (k1, v1) :: r1, (k2, v2) :: r2 =>
      k1 == k2 && attrEq v1 v2 && attrEqEntries r1 r2
  | _, _ => false

/-- Element-wise equality of attribute lists. -/
def attrEqList : List AttributeValue → List AttributeValue → Bool
  | [], [] => true
  | v1 :: r1, v2 :: r2 => attrEq v1 v2 && attrEqList r1 r2
  | _, _ => false

end

/-- Look an attribute up in an item. -/
def lookupAttr (item : Item) (k : String) : Option AttributeValue :=
  item.lookup k

/-- Modelled from the spec: whether a stored item matches a requested primary
key — every key attribute is present in the item with an equal value ("build
one composite key per identifier (partition key value + identifier as sort
key)"). -/
def keyMatches (item : Item) (key : Item) : Bool :=
  key.all fun kv =>
    match lookupAttr item kv.1 with
    | some v => attrEq v kv.2
    | none => false

/-- Modelled from the spec: the store's evaluation of the only filter shape
this service builds, `ItemID IN (:v0,...,:vN)` with the placeholders bound in
the expression-attribute values — the item's `ItemID` attribute equals one of
the bound values. -/
def scanMatches (input : ScanInput) (item : Item) : Bool :=
  input.expressionAttributeValues.any fun kv =>
    match lookupAttr item "ItemID" with
    | some v => attrEq v kv.2
    | none => false

/-- Modelled from the spec: an honest store holding `table`. Batch get
returns, per requested table, the first stored item matching each key (misses
omitted, "absence is not an error"); scan returns the stored items passing
the filter; neither fails and nothing is left unprocessed. -/
def tableClient (table : List Item) : Client :=
  ⟨fun input =>
      .ok ⟨input.requestItems.map
             (fun p => (p.1, p.2.keys.filterMap
               (fun key => table.find? (fun item => keyMatches item key)))),
           []⟩,
   fun input => .ok ⟨table.filter (scanMatches input)⟩⟩

/-- A store client used to instantiate theorems on concrete requests: it
always replies successfully with empty results. -/
def trivialClient : Client :=
  ⟨fun _ => .ok ⟨[], []⟩, fun _ => .ok ⟨[]⟩⟩

/-- Apply `f` to the last element of a list (helper for reasoning about the
final split segment). -/
def mapLastSeg {α : Type} (f : α → α) : List α → List α
  | [] => []
  | [x] => [f x]
  | x :: y :: rest => x :: mapLastSeg f (y :: rest)

/-! ## Claims about the attribute normalizer and the query builders -/

/-- `unwrapEntries` is the entry-wise image of the normalizer. -/
theorem unwrapEntries_eq_map (kvs : List (String × AttributeValue)) :
    unwrapEntries kvs = kvs.map fun kv => (kv.1, unwrapAttributeValue kv.2) := by
  induction kvs with
  | nil => rfl
  | cons kv rest ih => cases kv; simp [unwrapEntries, ih]

/-- `unwrapList` is the element-wise image of the normalizer. -/
theorem unwrapList_eq_map (vs : List AttributeValue) :
    unwrapList vs = vs.map unwrapAttributeValue := by
  induction vs with
  | nil => rfl
  | cons v rest ih => simp [unwrapList, ih]

/-- C1: `unwrapAttributeValue` is a total normalizer: a string tag yields its
string unchanged; a number tag yields its original decimal-string
representation (no numeric coercion); a boolean tag yields its boolean;
string-set and number-set tags yield their element sequences; a map tag
normalizes entry-wise with the key list (hence key set) preserved; a list tag
yields a same-length, order-preserving list of recursively normalized
elements; and every other tag (binary, binary set, null marker) yields null,
never an error. -/
theorem unwrapAttributeValue_normalizes (s n : String) (b nb : Bool)
    (xs ys : List String) (kvs : List (String × AttributeValue))
    (vs : List AttributeValue) (bytes : List Nat) (bss : List (List Nat)) :
    unwrapAttributeValue (.S s) = .str s ∧
    unwrapAttributeValue (.N n) = .str n ∧
    unwrapAttributeValue (.BOOL b) = .bool b ∧
    unwrapAttributeValue (.SS xs) = .strs xs ∧
    unwrapAttributeValue (.NS ys) = .strs ys ∧
    unwrapAttributeValue (.M kvs) =
      .map (kvs.map fun kv => (kv.1, unwrapAttributeValue kv.2)) ∧
    (unwrapEntries kvs).map Prod.fst = kvs.map Prod.fst ∧
    unwrapAttributeValue (.L vs) = .list (vs.map unwrapAttributeValue) ∧
    (unwrapList vs).length = vs.length ∧
    unwrapAttributeValue (.B bytes) = .null ∧
    unwrapAttributeValue (.BS bss) = .null ∧
    unwrapAttributeValue (.NULL nb) = .null := by
  refine ⟨rfl, rfl, rfl, rfl, rfl, ?_, ?_, ?_, ?_, rfl, rfl, rfl⟩
  · rw [show unwrapAttributeValue (.M kvs) = .map (unwrapEntries kvs) from rfl,
      unwrapEntries_eq_map]
  · rw [unwrapEntries_eq_map]
    simp
  · rw [show unwrapAttributeValue (.L vs) = .list (unwrapList vs) from rfl,
      unwrapList_eq_map]
  · rw [unwrapList_eq_map, List.length_map]

/-- The placeholder-building loop, characterized over any start state. -/
theorem buildScanExpr_loop (l : List (Nat × String))
    (a : List (String × AttributeValue)) (b : List String) :
    l.foldl
      (fun acc p =>
        (acc.1 ++ [(":v" ++ toString p.1, AttributeValue.S p.2)],
         acc.2 ++ [":v" ++ toString p.1]))
      (a, b)
      = (a ++ l.map fun p => (":v" ++ toString p.1, AttributeValue.S p.2),
         b ++ l.map fun p => ":v" ++ toString p.1) := by
  induction l generalizing a b with
  | nil => simp
  | cons p rest ih => simp [ih]

/-- The expression-attribute values and placeholders, per enumerated
identifier. -/
theorem buildScanExpr_eq (ids : List String) :
    buildScanExpr ids =
      (ids.enum.map fun p => (":v" ++ toString p.1, AttributeValue.S p.2),
       ids.enum.map fun p => ":v" ++ toString p.1) := by
  simpa [buildScanExpr] using buildScanExpr_loop ids.enum [] []

/-- The placeholder list is determined by the number of identifiers alone. -/
theorem scanPlaceholders_eq (ids : List String) :
    (buildScanExpr ids).2 =
      (List.range ids.length).map fun i => ":v" ++ toString i := by
  rw [buildScanExpr_eq, ← List.enum_map_fst ids, List.map_map]
  rfl

/-- C2: the scan path's filter expression is exactly
`ItemID IN (:v0,:v1,...,:vN)`, one placeholder per identifier in order; the
k-th identifier is bound as the expression-attribute value of the k-th
placeholder; and the expression string depends only on the number of
identifiers, so equal-length identifier lists yield the identical string and
no identifier value ever influences the expression string. -/
theorem scanFilter_spec (ids ids2 : List String) (_h : ids ≠ []) :
    scanFilter ids =
      "ItemID IN (" ++
        String.intercalate ","
          ((List.range ids.length).map fun i => ":v" ++ toString i) ++ ")" ∧
    (∀ (k : Nat) (id : String), ids[k]? = some id →
      (buildScanExpr ids).1[k]? =
        some (":v" ++ toString k, AttributeValue.S id) ∧
      (buildScanExpr ids).2[k]? = some (":v" ++ toString k)) ∧
    (ids2.length = ids.length → scanFilter ids2 = scanFilter ids) := by
  refine ⟨by rw [scanFilter, scanPlaceholders_eq], ?_, ?_⟩
  · intro k id hk
    rw [buildScanExpr_eq]
    constructor <;> simp [List.getElem?_map, List.getElem?_enum, hk]
  · intro hlen
    rw [scanFilter, scanFilter, scanPlaceholders_eq, scanPlaceholders_eq, hlen]

/-- Witness for C2 at a concrete input: the identifier values do not change
the expression string, and the first identifier is bound at `:v0`. -/
theorem scanFilter_spec_witness :
    scanFilter ["a", "b"] = scanFilter ["D1", "D2"] ∧
    (buildScanExpr ["D1", "D2"]).1[0]? = some (":v0", AttributeValue.S "D1") := by
  have h := scanFilter_spec ["D1", "D2"] ["a", "b"] (by decide)
  refine ⟨h.2.2 (by decide), ?_⟩
  have h0 := (h.2.1 0 "D1" (by decide)).1
  rw [h0]
  rfl

/-- The batch-key-building loop, characterized over any start state. -/
theorem buildBatchKeys_loop (l : List String) (acc : List Item) (sid : String) :
    l.foldl
      (fun keys id =>
        keys ++ [[("StoreID", AttributeValue.S sid),
                  ("ItemID", AttributeValue.S id)]])
      acc
      = acc ++ l.map fun id =>
          [("StoreID", AttributeValue.S sid),
           ("ItemID", AttributeValue.S id)] := by
  induction l generalizing acc with
  | nil => simp
  | cons x rest ih => simp [ih]

/-- One composite key per identifier, in order. -/
theorem buildBatchKeys_eq (sid : String) (ids : List String) :
    buildBatchKeys sid ids =
      ids.map fun id =>
        [("StoreID", AttributeValue.S sid),
         ("ItemID", AttributeValue.S id)] := by
  simpa [buildBatchKeys] using buildBatchKeys_loop ids [] sid

/-- C3: with a partition key present, the batch path builds exactly one
composite key per identifier — `StoreID` set to the partition-key value and
`ItemID` set to the identifier — in request order, preserving duplicate
identifiers as separate keys (the key list has the same length and the k-th
key carries the k-th identifier), and the handler issues a single batch fetch
with those keys under the configured table name. -/
theorem batchGetItems_keys_spec (client : Client) (tableName storeID : String)
    (ids : List String) (req : Request) (h : ids ≠ [])
    (hm : req.method = "GET") (hsid : storeID ≠ "")
    (hp : parseItemIDs req.itemIdsRaw = ids) :
    buildBatchKeys storeID ids =
      ids.map (fun id =>
        [("StoreID", AttributeValue.S storeID),
         ("ItemID", AttributeValue.S id)]) ∧
    (buildBatchKeys storeID ids).length = ids.length ∧
    (∀ (k : Nat) (id : String), ids[k]? = some id →
      (buildBatchKeys storeID ids)[k]? =
        some [("StoreID", AttributeValue.S storeID),
              ("ItemID", AttributeValue.S id)]) ∧
    (handleItems client tableName storeID req).calls =
      [StoreCall.batch ⟨[(tableName, ⟨buildBatchKeys storeID ids⟩)]⟩] := by
  refine ⟨buildBatchKeys_eq storeID ids, ?_, ?_, ?_⟩
  · rw [buildBatchKeys_eq, List.length_map]
  · intro k id hk
    rw [buildBatchKeys_eq, List.getElem?_map, hk]
    rfl
  · have hlen : (parseItemIDs req.itemIdsRaw).length ≠ 0 := by
      rw [hp]
      simpa [List.length_eq_zero] using h
    simp only [handleItems, hm, hp]
    rw [if_neg (by simp), if_neg (by simp)]
    rw [if_neg (by simpa [hp] using hlen)]
    rw [if_pos hsid]
    cases hb : batchGetItems client tableName storeID ids <;>
      simp [hb, batchInput]

/-- Witness for C3: a concrete GET for `D1,D2` with partition key `store-1`
issues exactly one batch fetch with the two composite keys. -/
theorem batchGetItems_keys_spec_witness :
    (handleItems trivialClient "Items" "store-1" ⟨"GET", "D1,D2"⟩).calls =
      [StoreCall.batch
        ⟨[("Items", ⟨buildBatchKeys "store-1" ["D1", "D2"]⟩)]⟩] :=
  (batchGetItems_keys_spec trivialClient "Items" "store-1" ["D1", "D2"]
    ⟨"GET", "D1,D2"⟩ (by decide) rfl (by decide) (by decide)).2.2.2

/-! ## Claims about the HTTP handler -/

/-- C6: a GET whose `itemIds` parameter is missing, empty, or trims to an
empty identifier list is answered 400 Bad Request with the validation
message, with no store call issued (neither batch nor scan path runs). -/
theorem empty_ids_rejected (client : Client) (tableName storeID : String)
    (req : Request) (hm : req.method = "GET")
    (hp : parseItemIDs req.itemIdsRaw = []) :
    handleItems client tableName storeID req =
      ⟨400, commonHeaders, .text "itemIds is required", []⟩ := by
  simp [handleItems, hm, hp]

/-- Witness for C6: the all-whitespace value `" , ,"` is rejected with 400
and no store call, whatever the store would have answered. -/
theorem empty_ids_rejected_witness :
    handleItems trivialClient "Items" "" ⟨"GET", " , ,"⟩ =
      ⟨400, commonHeaders, .text "itemIds is required", []⟩ :=
  empty_ids_rejected trivialClient "Items" "" ⟨"GET", " , ,"⟩ rfl (by decide)

/-- C7: on the read route, an OPTIONS request is answered 204 with empty body
and no store call; any method other than GET and OPTIONS is answered 405
"method not allowed"; and the three CORS headers are present on every
response, whatever the request and store behaviour. -/
theorem read_route_methods_cors (client : Client) (tableName storeID : String)
    (req : Request) :
    (req.method = "OPTIONS" →
      handleItems client tableName storeID req =
        ⟨204, commonHeaders, .empty, []⟩) ∧
    (req.method ≠ "OPTIONS" → req.method ≠ "GET" →
      handleItems client tableName storeID req =
        ⟨405, commonHeaders, .text "method not allowed", []⟩) ∧
    (∀ hdr ∈ commonHeaders,
      hdr ∈ (handleItems client tableName storeID req).headers) := by
  refine ⟨fun h => by simp [handleItems, h],
    fun h1 h2 => by simp [handleItems, h1, h2], ?_⟩
  intro hdr hmem
  simp only [handleItems]
  split
  · exact hmem
  split
  · exact hmem
  split
  · exact hmem
  split
  · exact hmem
  · exact List.mem_append.mpr (Or.inl hmem)

/-- Witness for C7: a concrete OPTIONS preflight gets 204, an empty body and
no store call, and a concrete POST gets 405; the CORS headers are set on the
405 response. -/
theorem read_route_methods_cors_witness :
    handleItems trivialClient "Items" "" ⟨"OPTIONS", ""⟩ =
      ⟨204, commonHeaders, .empty, []⟩ ∧
    handleItems trivialClient "Items" "" ⟨"POST", "D1"⟩ =
      ⟨405, commonHeaders, .text "method not allowed", []⟩ ∧
    ("Access-Control-Allow-Origin", "*") ∈
      (handleItems trivialClient "Items" "" ⟨"POST", "D1"⟩).headers :=
  ⟨(read_route_methods_cors trivialClient "Items" "" ⟨"OPTIONS", ""⟩).1 rfl,
   (read_route_methods_cors trivialClient "Items" "" ⟨"POST", "D1"⟩).2.1
     (by decide) (by decide),
   (read_route_methods_cors trivialClient "Items" "" ⟨"POST", "D1"⟩).2.2
     ("Access-Control-Allow-Origin", "*") (by decide)⟩

/-- C8: when the downstream resolve call fails — whichever path ran, whatever
the error text `e` (timeouts included) — the handler answers 500 with the
fixed generic message, whose body does not depend on (hence cannot leak) the
underlying error. -/
theorem store_error_masked (client : Client) (tableName storeID : String)
    (req : Request) (e : String) (hm : req.method = "GET")
    (hne : parseItemIDs req.itemIdsRaw ≠ [])
    (herr : if storeID ≠ "" then
        client.batchGetItem
          (batchInput tableName storeID (parseItemIDs req.itemIdsRaw)) =
          .error e
      else
        client.scan (scanInputOf tableName (parseItemIDs req.itemIdsRaw)) =
          .error e) :
    (handleItems client tableName storeID req).status = 500 ∧
    (handleItems client tableName storeID req).body =
      .text "failed to query items" := by
  have hlen : ¬(parseItemIDs req.itemIdsRaw).length = 0 := by
    simpa [List.length_eq_zero] using hne
  by_cases hsid : storeID = ""
  · subst hsid
    rw [if_neg (by simp)] at herr
    simp [handleItems, hm, hlen, scanByItemIDs, herr]
  · rw [if_pos hsid] at herr
    simp [handleItems, hm, hsid, hlen, batchGetItems, herr]

/-- Witness for C8: a client that fails with a detailed timeout message gets
masked into the generic 500 body. -/
theorem store_error_masked_witness :
    (handleItems
        ⟨fun _ => .error "context deadline exceeded", fun _ => .ok ⟨[]⟩⟩
        "Items" "store-1" ⟨"GET", "D1,D2"⟩).status = 500 ∧
    (handleItems
        ⟨fun _ => .error "context deadline exceeded", fun _ => .ok ⟨[]⟩⟩
        "Items" "store-1" ⟨"GET", "D1,D2"⟩).body =
      .text "failed to query items" :=
  store_error_masked
    ⟨fun _ => .error "context deadline exceeded", fun _ => .ok ⟨[]⟩⟩
    "Items" "store-1" ⟨"GET", "D1,D2"⟩ "context deadline exceeded"
    rfl (by decide) (by rw [if_pos (by decide)])

/-- C9: on a successful read, the response is 200 and its JSON carries the
full parsed identifier list in `itemIds` — even for identifiers with no
matching record — and exactly the records the resolve call found in `items`;
absence of a record is not an error. -/
theorem success_reports_all_ids (client : Client) (tableName storeID : String)
    (req : Request) (items : List responseItem) (hm : req.method = "GET")
    (hne : parseItemIDs req.itemIdsRaw ≠ [])
    (hok : (if storeID ≠ "" then
        batchGetItems client tableName storeID (parseItemIDs req.itemIdsRaw)
      else
        scanByItemIDs client tableName (parseItemIDs req.itemIdsRaw)) =
      .ok items) :
    (handleItems client tableName storeID req).status = 200 ∧
    (handleItems client tableName storeID req).body =
      .json ⟨parseItemIDs req.itemIdsRaw, items⟩ := by
  have hlen : ¬(parseItemIDs req.itemIdsRaw).length = 0 := by
    simpa [List.length_eq_zero] using hne
  by_cases hsid : storeID = ""
  · subst hsid
    rw [if_neg (by simp)] at hok
    simp [handleItems, hm, hlen, hok]
  · rw [if_pos hsid] at hok
    simp [handleItems, hm, hsid, hlen, hok]

/-- Witness for C9: with partition key `store-1` and a store holding only
`D1`, the GET for `D1,D2` succeeds with one record while `itemIds` still
lists both requested identifiers. -/
theorem success_reports_all_ids_witness :
    (handleItems
        (tableClient [[("StoreID", AttributeValue.S "store-1"),
                       ("ItemID", AttributeValue.S "D1"),
                       ("Price", AttributeValue.N "5")]])
        "Items" "store-1" ⟨"GET", "D1,D2"⟩).body =
      .json ⟨["D1", "D2"],
             [[("StoreID", Plain.str "store-1"),
               ("ItemID", Plain.str "D1"),
               ("Price", Plain.str "5")]]⟩ := by
  have h := success_reports_all_ids
    (tableClient [[("StoreID", AttributeValue.S "store-1"),
                   ("ItemID", AttributeValue.S "D1"),
                   ("Price", AttributeValue.N "5")]])
    "Items" "store-1" ⟨"GET", "D1,D2"⟩
    [[("StoreID", Plain.str "store-1"),
      ("ItemID", Plain.str "D1"),
      ("Price", Plain.str "5")]]
    rfl (by decide) (by rw [if_pos (by decide)]; rfl)
  rw [h.2]
  rfl

/-- C10: the batch path builds its result from the reply entry for the
configured table alone: replies agreeing on `Responses` yield identical
results whatever their `UnprocessedKeys`, which are ignored without retry or
error. -/
theorem batch_ignores_unprocessed (c1 c2 : Client) (tableName storeID : String)
    (ids : List String) (o1 o2 : BatchGetItemOutput)
    (h1 : c1.batchGetItem (batchInput tableName storeID ids) = .ok o1)
    (h2 : c2.batchGetItem (batchInput tableName storeID ids) = .ok o2)
    (hres : o1.responses = o2.responses) :
    batchGetItems c1 tableName storeID ids =
      .ok (convertItems ((o1.responses.lookup tableName).getD [])) ∧
    batchGetItems c1 tableName storeID ids =
      batchGetItems c2 tableName storeID ids := by
  constructor
  · simp [batchGetItems, h1]
  · simp [batchGetItems, h1, h2, hres]

/-- Witness for C10: a reply that leaves a key unprocessed is
indistinguishable from one that processed everything and found nothing. -/
theorem batch_ignores_unprocessed_witness :
    batchGetItems
        ⟨fun _ => .ok ⟨[("Items", [])],
            [("Items", ⟨[[("ItemID", AttributeValue.S "D1")]]⟩)]⟩,
         fun _ => .ok ⟨[]⟩⟩
        "Items" "store-1" ["D1"] =
      batchGetItems
        ⟨fun _ => .ok ⟨[("Items", [])], []⟩, fun _ => .ok ⟨[]⟩⟩
        "Items" "store-1" ["D1"] :=
  (batch_ignores_unprocessed
      ⟨fun _ => .ok ⟨[("Items", [])],
          [("Items", ⟨[[("ItemID", AttributeValue.S "D1")]]⟩)]⟩,
       fun _ => .ok ⟨[]⟩⟩
      ⟨fun _ => .ok ⟨[("Items", [])], []⟩, fun _ => .ok ⟨[]⟩⟩
      "Items" "store-1" ["D1"]
      ⟨[("Items", [])],
       [("Items", ⟨[[("ItemID", AttributeValue.S "D1")]]⟩)]⟩
      ⟨[("Items", [])], []⟩ rfl rfl rfl).2

/-! ## The identifier-parsing characterization (C5) -/

/-- The collecting loop of `parseItemIDs` appends exactly the non-empty
trimmed segments, in order. -/
theorem parse_loop_collect (parts : List (List Char))
    (acc : List (List Char)) :
    parts.foldl
      (fun ids part =>
        let t := trimList part
        if t = [] then ids else ids ++ [t])
      acc
      = acc ++ (parts.map trimList).filter (fun t => t ≠ []) := by
  induction parts generalizing acc with
  | nil => simp
  | cons p rest ih =>
    by_cases hp : trimList p = []
    · simp [List.foldl_cons, List.filter_cons, hp, ih]
    · simp [List.foldl_cons, List.filter_cons, hp, ih]

/-- Splitting never yields an empty list of segments. -/
theorem splitOnCommaAux_ne_nil (cs acc : List Char) :
    splitOnCommaAux cs acc ≠ [] := by
  induction cs generalizing acc with
  | nil => simp [splitOnCommaAux]
  | cons c rest ih =>
    by_cases hc : c = ','
    · simp [splitOnCommaAux, hc]
    · simpa [splitOnCommaAux, hc] using ih (c :: acc)

/-- The accumulator only lands (reversed) at the front of the first
segment. -/
theorem splitOnCommaAux_acc (cs acc : List Char) :
    splitOnCommaAux cs acc =
      (acc.reverse ++ (splitOnCommaAux cs []).headI) ::
        (splitOnCommaAux cs []).tail := by
  induction cs generalizing acc with
  | nil => simp [splitOnCommaAux]
  | cons c rest ih =>
    by_cases hc : c = ','
    · simp [splitOnCommaAux, hc]
    · have e1 : splitOnCommaAux (c :: rest) acc =
          splitOnCommaAux rest (c :: acc) := by
        simp [splitOnCommaAux, hc]
      have e2 : splitOnCommaAux (c :: rest) [] =
          splitOnCommaAux rest [c] := by
        simp [splitOnCommaAux, hc]
      rw [e1, e2, ih (c :: acc), ih [c]]
      simp

/-- Splitting a comma-free block yields a single segment. -/
theorem splitOnCommaAux_no_comma (ws acc : List Char)
    (h : ∀ c ∈ ws, ¬c = ',') :
    splitOnCommaAux ws acc = [acc.reverse ++ ws] := by
  induction ws generalizing acc with
  | nil => simp [splitOnCommaAux]
  | cons c rest ih =>
    have hc : ¬c = ',' := h c (List.mem_cons_self c rest)
    simp only [splitOnCommaAux, if_neg hc]
    rw [ih (c :: acc) (fun x hx => h x (List.mem_cons_of_mem c hx))]
    simp

/-- A leading comma-free block only feeds the accumulator. -/
theorem splitOnCommaAux_ws_first (ws zs acc : List Char)
    (h : ∀ c ∈ ws, ¬c = ',') :
    splitOnCommaAux (ws ++ zs) acc =
      splitOnCommaAux zs (ws.reverse ++ acc) := by
  induction ws generalizing acc with
  | nil => simp
  | cons c rest ih =>
    have hc : ¬c = ',' := h c (List.mem_cons_self c rest)
    simp only [List.cons_append, splitOnCommaAux, if_neg hc, List.append_eq]
    rw [ih (c :: acc) (fun x hx => h x (List.mem_cons_of_mem c hx))]
    simp

/-- `mapLastSeg` on a cons with a non-empty tail. -/
theorem mapLastSeg_cons {α : Type} (f : α → α) (x : α) (l : List α)
    (h : l ≠ []) : mapLastSeg f (x :: l) = x :: mapLastSeg f l := by
  cases l with
  | nil => exact absurd rfl h
  | cons y rest => rfl

/-- A trailing comma-free block lands on the last segment. -/
theorem splitOnCommaAux_ws_last (core ws acc : List Char)
    (h : ∀ c ∈ ws, ¬c = ',') :
    splitOnCommaAux (core ++ ws) acc =
      mapLastSeg (fun t => t ++ ws) (splitOnCommaAux core acc) := by
  induction core generalizing acc with
  | nil =>
    rw [List.nil_append, splitOnCommaAux_no_comma ws acc h]
    rfl
  | cons c rest ih =>
    by_cases hc : c = ','
    · simp only [List.cons_append, splitOnCommaAux, if_pos hc, List.append_eq]
      rw [ih [], mapLastSeg_cons _ _ _ (splitOnCommaAux_ne_nil rest [])]
    · simp only [List.cons_append, splitOnCommaAux, if_neg hc, List.append_eq]
      exact ih (c :: acc)

/-- `dropWhile` jumps over a block satisfying the predicate. -/
theorem dropWhile_append_sat {α : Type} (p : α → Bool) (ws xs : List α)
    (h : ∀ c ∈ ws, p c = true) :
    List.dropWhile p (ws ++ xs) = List.dropWhile p xs := by
  induction ws with
  | nil => rfl
  | cons c rest ih =>
    rw [List.cons_append, List.dropWhile_cons,
      if_pos (h c (List.mem_cons_self c rest))]
    exact ih (fun x hx => h x (List.mem_cons_of_mem c hx))

/-- Trimming on the left ignores a leading white-space block. -/
theorem trimLeft_ws_append (ws xs : List Char)
    (h : ∀ c ∈ ws, goIsSpace c = true) :
    trimLeft (ws ++ xs) = trimLeft xs :=
  dropWhile_append_sat goIsSpace ws xs h

/-- Trimming on the right ignores a trailing white-space block. -/
theorem trimRight_ws_append (xs ws : List Char)
    (h : ∀ c ∈ ws, goIsSpace c = true) :
    trimRight (xs ++ ws) = trimRight xs := by
  unfold trimRight
  rw [List.reverse_append,
    dropWhile_append_sat goIsSpace ws.reverse xs.reverse
      (fun c hc => h c (List.mem_reverse.mp hc))]

/-- Trimming an all-white-space list on the right leaves nothing. -/
theorem trimRight_all_space (ws : List Char)
    (h : ∀ c ∈ ws, goIsSpace c = true) :
    trimRight ws = [] := by
  unfold trimRight
  rw [List.dropWhile_eq_nil_iff.mpr
    (fun c hc => h c (List.mem_reverse.mp hc))]
  rfl

/-- Trimming ignores a leading white-space block. -/
theorem trimList_ws_left (ws xs : List Char)
    (h : ∀ c ∈ ws, goIsSpace c = true) :
    trimList (ws ++ xs) = trimList xs := by
  unfold trimList
  rw [trimLeft_ws_append ws xs h]

/-- When something survives the left trim, appending distributes over it. -/
theorem trimLeft_append_of_ne_nil (xs ws : List Char)
    (h : trimLeft xs ≠ []) :
    trimLeft (xs ++ ws) = trimLeft xs ++ ws := by
  induction xs with
  | nil => exact absurd rfl h
  | cons c rest ih =>
    by_cases hc : goIsSpace c = true
    · have e : trimLeft (c :: rest) = trimLeft rest := by
        unfold trimLeft
        rw [List.dropWhile_cons, if_pos hc]
      rw [e] at h
      rw [List.cons_append]
      have e2 : trimLeft (c :: (rest ++ ws)) = trimLeft (rest ++ ws) := by
        unfold trimLeft
        rw [List.dropWhile_cons, if_pos hc]
      rw [e2, ih h, e]
    · have e : trimLeft (c :: rest) = c :: rest := by
        unfold trimLeft
        rw [List.dropWhile_cons, if_neg hc]
      have e2 : trimLeft (c :: (rest ++ ws)) = c :: (rest ++ ws) := by
        unfold trimLeft
        rw [List.dropWhile_cons, if_neg hc]
      rw [List.cons_append, e2, e]
      rfl

/-- Trimming ignores a trailing white-space block. -/
theorem trimList_ws_right (xs ws : List Char)
    (h : ∀ c ∈ ws, goIsSpace c = true) :
    trimList (xs ++ ws) = trimList xs := by
  by_cases hx : trimLeft xs = []
  · have hxs : ∀ c ∈ xs, goIsSpace c = true :=
      List.dropWhile_eq_nil_iff.mp hx
    have hall : ∀ c ∈ xs ++ ws, goIsSpace c = true := by
      intro c hc
      rcases List.mem_append.mp hc with h1 | h2
      · exact hxs c h1
      · exact h c h2
    have hsub : ∀ c ∈ trimLeft (xs ++ ws), goIsSpace c = true := by
      intro c hc
      exact hall c ((List.dropWhile_sublist goIsSpace).subset hc)
    unfold trimList
    rw [hx, trimRight_all_space _ hsub]
    rfl
  · unfold trimList
    rw [trimLeft_append_of_ne_nil xs ws hx, trimRight_ws_append _ ws h]

/-- A list whose trim is empty is entirely white space. -/
theorem trimList_eq_nil_all_space (cs : List Char) (h : trimList cs = []) :
    ∀ c ∈ cs, goIsSpace c = true := by
  intro c hc
  have h2 : (trimLeft cs).reverse.dropWhile goIsSpace = [] := by
    unfold trimList trimRight at h
    exact List.reverse_eq_nil_iff.mp h
  have h4 : ∀ x ∈ trimLeft cs, goIsSpace x = true := fun x hx =>
    List.dropWhile_eq_nil_iff.mp h2 x (List.mem_reverse.mpr hx)
  have hsplit : c ∈ List.takeWhile goIsSpace cs ++ trimLeft cs := by
    rw [show List.takeWhile goIsSpace cs ++ trimLeft cs = cs from
      List.takeWhile_append_dropWhile goIsSpace cs]
    exact hc
  rcases List.mem_append.mp hsplit with h1 | h2
  · exact List.mem_takeWhile_imp h1
  · exact h4 c h2

/-- Every list is a white-space block, its trim, and a white-space block. -/
theorem trim_decomp (cs : List Char) :
    ∃ ws1 ws2, (∀ c ∈ ws1, goIsSpace c = true) ∧
      (∀ c ∈ ws2, goIsSpace c = true) ∧
      cs = ws1 ++ trimList cs ++ ws2 := by
  refine ⟨List.takeWhile goIsSpace cs,
    (List.takeWhile goIsSpace (trimLeft cs).reverse).reverse,
    fun c hc => List.mem_takeWhile_imp hc,
    fun c hc => List.mem_takeWhile_imp (List.mem_reverse.mp hc), ?_⟩
  have hy : trimLeft cs =
      (List.dropWhile goIsSpace (trimLeft cs).reverse).reverse ++
        (List.takeWhile goIsSpace (trimLeft cs).reverse).reverse := by
    conv_lhs => rw [← List.reverse_reverse (trimLeft cs),
      ← List.takeWhile_append_dropWhile goIsSpace (trimLeft cs).reverse]
    rw [List.reverse_append]
  calc cs = List.takeWhile goIsSpace cs ++ trimLeft cs :=
        (List.takeWhile_append_dropWhile goIsSpace cs).symm
    _ = List.takeWhile goIsSpace cs ++
          ((List.dropWhile goIsSpace (trimLeft cs).reverse).reverse ++
            (List.takeWhile goIsSpace (trimLeft cs).reverse).reverse) := by
        conv_lhs => rw [hy]
    _ = List.takeWhile goIsSpace cs ++
          (trimList cs ++
            (List.takeWhile goIsSpace (trimLeft cs).reverse).reverse) := rfl
    _ = List.takeWhile goIsSpace cs ++ trimList cs ++
          (List.takeWhile goIsSpace (trimLeft cs).reverse).reverse :=
        (List.append_assoc _ _ _).symm

/-- Trimming each segment erases a white-space block glued to the last one. -/
theorem mapLastSeg_map_trim (ws : List Char)
    (h : ∀ c ∈ ws, goIsSpace c = true) (l : List (List Char)) (hl : l ≠ []) :
    (mapLastSeg (fun t => t ++ ws) l).map trimList = l.map trimList := by
  induction l with
  | nil => exact absurd rfl hl
  | cons x rest ih =>
    cases rest with
    | nil => simp [mapLastSeg, trimList_ws_right x ws h]
    | cons y t =>
      rw [mapLastSeg_cons _ _ _ (by simp)]
      simp only [List.map_cons]
      rw [ih (by simp)]
      simp

/-- White space is never a comma. -/
theorem space_ne_comma (c : Char) (h : goIsSpace c = true) : ¬c = ',' := by
  intro hc
  rw [hc] at h
  exact absurd h (by decide)

/-- `parseItemIDs` at the character level: split the raw (untrimmed) value on
commas, trim each segment, drop the empty segments. -/
theorem parseItemIDsChars_eq (cs : List Char) :
    parseItemIDsChars cs =
      ((splitOnComma cs).map trimList).filter (fun t => t ≠ []) := by
  by_cases h : trimList cs = []
  · have hsp := trimList_eq_nil_all_space cs h
    have hnc : ∀ c ∈ cs, ¬c = ',' := fun c hc => space_ne_comma c (hsp c hc)
    rw [splitOnComma, splitOnCommaAux_no_comma cs [] hnc]
    simp [parseItemIDsChars, h]
  · obtain ⟨ws1, ws2, hws1, hws2, hdec⟩ := trim_decomp cs
    have hnc1 : ∀ c ∈ ws1, ¬c = ',' := fun c hc => space_ne_comma c (hws1 c hc)
    have hnc2 : ∀ c ∈ ws2, ¬c = ',' := fun c hc => space_ne_comma c (hws2 c hc)
    have hL : parseItemIDsChars cs =
        ((splitOnComma (trimList cs)).map trimList).filter
          (fun t => t ≠ []) := by
      simp only [parseItemIDsChars, if_neg h]
      rw [parse_loop_collect]
      simp
    rw [hL]
    conv_rhs => rw [hdec]
    simp only [splitOnComma]
    rw [List.append_assoc,
      splitOnCommaAux_ws_first ws1 _ [] hnc1,
      splitOnCommaAux_ws_last (trimList cs) ws2 _ hnc2,
      splitOnCommaAux_acc (trimList cs) (ws1.reverse ++ [])]
    rcases e : splitOnCommaAux (trimList cs) [] with _ | ⟨h0, t0⟩
    · exact absurd e (splitOnCommaAux_ne_nil (trimList cs) [])
    · simp only [List.headI, List.tail_cons, List.append_nil,
        List.reverse_reverse]
      cases t0 with
      | nil =>
        simp only [mapLastSeg, List.map_cons, List.map_nil]
        rw [trimList_ws_right (ws1 ++ h0) ws2 hws2,
          trimList_ws_left ws1 h0 hws1]
      | cons y t =>
        rw [mapLastSeg_cons _ _ _ (by simp)]
        simp only [List.map_cons]
        rw [mapLastSeg_map_trim ws2 hws2 (y :: t) (by simp),
          trimList_ws_left ws1 h0 hws1]
        simp

/-- C5: `parseItemIDs` splits the raw query value on commas, trims white
space from every segment, and drops the empty segments; in particular the
input `"1, 2 ,3,,"` parses to exactly `["1", "2", "3"]`. -/
theorem parseItemIDs_spec (raw : String) :
    parseItemIDs raw =
      ((splitOnComma raw.data).map fun p => String.mk (trimList p)).filter
        (fun s => s ≠ "") ∧
    parseItemIDs "1, 2 ,3,," = ["1", "2", "3"] := by
  refine ⟨?_, by decide⟩
  rw [parseItemIDs, parseItemIDsChars_eq]
  rw [show ((splitOnComma raw.data).map fun p => String.mk (trimList p)) =
        ((splitOnComma raw.data).map trimList).map String.mk from by
      rw [List.map_map]
      rfl]
  conv_rhs => rw [List.filter_map]
  congr 1
  apply List.filter_congr
  intro t ht
  show decide (t ≠ []) = decide (String.mk t ≠ "")
  rw [decide_eq_decide]
  constructor
  · intro hne hmk
    exact hne (by rw [String.ext_iff] at hmk; exact hmk)
  · intro hne hmk
    apply hne
    rw [String.ext_iff]
    exact hmk

/-! ## Batch-path / scan-path consistency (C4) -/

/-- `attrEq` against a string value decides propositional equality. -/
theorem attrEq_S_right (v : AttributeValue) (s : String) :
    attrEq v (AttributeValue.S s) = true ↔ v = AttributeValue.S s := by
  cases v <;> simp [attrEq]

/-- Normalizing an item commutes with attribute lookup. -/
theorem lookup_attributeValueToMap (item : Item) (k : String) :
    (attributeValueToMap item).lookup k =
      (lookupAttr item k).map unwrapAttributeValue := by
  induction item with
  | nil => rfl
  | cons kv rest ih =>
    cases kv with
    | mk k0 v0 =>
      simp only [attributeValueToMap, List.map_cons] at *
      rw [List.lookup_cons]
      unfold lookupAttr
      rw [List.lookup_cons]
      cases h : k == k0
      · simpa [attributeValueToMap, lookupAttr] using ih
      · rfl

/-- What the batch path computes against the honest store. -/
theorem batchGetItems_tableClient (table : List Item) (tn sid : String)
    (ids : List String) :
    batchGetItems (tableClient table) tn sid ids =
      .ok (convertItems ((buildBatchKeys sid ids).filterMap
        fun key => table.find? fun item => keyMatches item key)) := by
  simp [batchGetItems, tableClient, batchInput, List.lookup]

/-- What the scan path computes against the honest store. -/
theorem scanByItemIDs_tableClient (table : List Item) (tn : String)
    (ids : List String) :
    scanByItemIDs (tableClient table) tn ids =
      .ok (convertItems (table.filter
        (scanMatches (scanInputOf tn ids)))) := by
  simp [scanByItemIDs, tableClient]

/-- A raw item found by the batch path is a stored item whose `ItemID`
attribute is one of the requested identifiers. -/
theorem mem_batch_raw (table : List Item) (sid : String) (ids : List String)
    (rb : Item)
    (h : rb ∈ (buildBatchKeys sid ids).filterMap
      fun key => table.find? fun item => keyMatches item key) :
    rb ∈ table ∧ ∃ id ∈ ids, lookupAttr rb "ItemID" = some (.S id) := by
  obtain ⟨key, hkeymem, hfind⟩ := List.mem_filterMap.mp h
  refine ⟨List.mem_of_find?_eq_some hfind, ?_⟩
  have hmatch := List.find?_some hfind
  rw [buildBatchKeys_eq] at hkeymem
  obtain ⟨id, hid, hkeyeq⟩ := List.mem_map.mp hkeymem
  refine ⟨id, hid, ?_⟩
  rw [← hkeyeq] at hmatch
  simp only [keyMatches, List.all_cons, List.all_nil, Bool.and_true,
    Bool.and_eq_true] at hmatch
  rcases hmatch with ⟨-, h2⟩
  rcases hl : lookupAttr rb "ItemID" with - | v
  · rw [hl] at h2
    exact absurd h2 (by simp)
  · rw [hl] at h2
    rw [(attrEq_S_right v id).mp h2]

/-- A raw item found by the scan path is a stored item whose `ItemID`
attribute is one of the requested identifiers. -/
theorem mem_scan_raw (table : List Item) (tn : String) (ids : List String)
    (rs : Item)
    (h : rs ∈ table.filter (scanMatches (scanInputOf tn ids))) :
    rs ∈ table ∧ ∃ id ∈ ids, lookupAttr rs "ItemID" = some (.S id) := by
  obtain ⟨hmem, hmatch⟩ := List.mem_filter.mp h
  refine ⟨hmem, ?_⟩
  simp only [scanMatches, scanInputOf] at hmatch
  rw [show (buildScanExpr ids).1 =
      ids.enum.map fun p => (":v" ++ toString p.1, AttributeValue.S p.2) from
      by rw [buildScanExpr_eq]] at hmatch
  obtain ⟨kv, hkvmem, hkv⟩ := List.any_eq_true.mp hmatch
  obtain ⟨p, hpmem, hpeq⟩ := List.mem_map.mp hkvmem
  have hidmem : p.2 ∈ ids := by
    rw [← List.enum_map_snd ids]
    exact List.mem_map_of_mem Prod.snd hpmem
  refine ⟨p.2, hidmem, ?_⟩
  rw [← hpeq] at hkv
  rcases hl : lookupAttr rs "ItemID" with - | v
  · rw [hl] at hkv
    exact absurd hkv (by simp)
  · rw [hl] at hkv
    rw [(attrEq_S_right v p.2).mp hkv]

/-- C4: against the same stored records (with `ItemID` determining the
record), the batch path and the scan path agree record-for-record: whenever
an item in the batch result and an item in the scan result carry the same
`ItemID`, they are the same normalized record, field for field. -/
theorem batch_scan_consistent (table : List Item) (tn sid : String)
    (ids : List String)
    (hkey : ∀ r1 ∈ table, ∀ r2 ∈ table,
      lookupAttr r1 "ItemID" = lookupAttr r2 "ItemID" → r1 = r2)
    (bs ss : List responseItem)
    (hb : batchGetItems (tableClient table) tn sid ids = .ok bs)
    (hs : scanByItemIDs (tableClient table) tn ids = .ok ss) :
    ∀ b ∈ bs, ∀ s ∈ ss,
      b.lookup "ItemID" = s.lookup "ItemID" → b = s := by
  rw [batchGetItems_tableClient] at hb
  rw [scanByItemIDs_tableClient] at hs
  rw [Except.ok.injEq] at hb hs
  intro b hbmem s hsmem hid
  rw [← hb] at hbmem
  rw [← hs] at hsmem
  obtain ⟨rb, hrbmem, hrbeq⟩ := List.mem_map.mp hbmem
  obtain ⟨rs, hrsmem, hrseq⟩ := List.mem_map.mp hsmem
  obtain ⟨hrbtab, idb, -, hrbid⟩ := mem_batch_raw table sid ids rb hrbmem
  obtain ⟨hrstab, idr, -, hrsid⟩ := mem_scan_raw table tn ids rs hrsmem
  rw [← hrbeq, ← hrseq, lookup_attributeValueToMap,
    lookup_attributeValueToMap, hrbid, hrsid] at hid
  simp only [Option.map_some', unwrapAttributeValue, Option.some.injEq,
    Plain.str.injEq] at hid
  have : rb = rs := by
    apply hkey rb hrbtab rs hrstab
    rw [hrbid, hrsid, hid]
  rw [← hrbeq, ← hrseq, this]

/-- Witness for C4 on a one-item store: with partition key `store-1` and the
request `D1,D2`, the two paths return the same normalized record for `D1`. -/
theorem batch_scan_consistent_witness :
    [("StoreID", Plain.str "store-1"), ("ItemID", Plain.str "D1"),
     ("Price", Plain.str "5")] =
      [("StoreID", Plain.str "store-1"), ("ItemID", Plain.str "D1"),
       ("Price", Plain.str "5")] := by
  have h := batch_scan_consistent
    [[("StoreID", AttributeValue.S "store-1"),
      ("ItemID", AttributeValue.S "D1"),
      ("Price", AttributeValue.N "5")]]
    "Items" "store-1" ["D1", "D2"]
    (by
      intro r1 h1 r2 h2 _
      rw [List.mem_singleton] at h1 h2
      rw [h1, h2])
    [[("StoreID", Plain.str "store-1"), ("ItemID", Plain.str "D1"),
      ("Price", Plain.str "5")]]
    [[("StoreID", Plain.str "store-1"), ("ItemID", Plain.str "D1"),
      ("Price", Plain.str "5")]]
    rfl rfl
  exact h _ (List.mem_singleton.mpr rfl) _ (List.mem_singleton.mpr rfl) rfl

end ItemsService
